import Mathlib

/-!
Shallow embedding of the log-analyzer system (coordinator.py, worker.py):
a coordinator that registers workers, receives per-chunk results, tracks
worker health, plans byte-range chunks of a file and hands them to workers
round-robin, plus the worker-side chunk-metrics computation.

Python dictionaries are modelled as insertion-ordered association lists
(`List (String × α)`): `dictGet`, `dictSet`, `dictPop` mirror `d[k]`,
`d[k] = v` and `d.pop(k, None)` on dictionaries without duplicate keys,
which is the only way the source ever builds them.
-/

namespace LogAnalyzer

/-- Response returned by an aiohttp handler: HTTP status code and body text. -/
structure HttpResponse where
  status : Nat
  text : String
deriving DecidableEq, Repr

/-- Metrics dict built by `Worker.process_chunk` in worker.py:
`{"lines": _, "errors": _, "warnings": _}`.  This is also the payload a worker
submits to the coordinator's `/submit` endpoint (`{"worker_id": .., "result": metrics}`),
so it is the element type of the coordinator's `results` lists. -/
structure ChunkMetrics where
  lines : Nat
  errors : Nat
  warnings : Nat
deriving DecidableEq, Repr

/-- Worker record stored in `Coordinator.workers`: the dict `{"status": status}`. -/
structure WorkerRecord where
  status : String
deriving DecidableEq, Repr

/-- Python dict lookup `d.get(k)` over an insertion-ordered association list. -/
def dictGet {α : Type} : List (String × α) → String → Option α
  | [], _ => none
  | (k, v) :: d, key => if k = key then some v else dictGet d key

/-- Python `d[k] = v`: replaces the value in place when the key is present,
appends a new entry at the end otherwise. -/
def dictSet {α : Type} : List (String × α) → String → α → List (String × α)
  | [], key, v => [(key, v)]
  | (k, w) :: d, key, v => if k = key then (key, v) :: d else (k, w) :: dictSet d key v

/-- Python `d.pop(k, None)`: removes the entry with the given key, if any. -/
def dictPop {α : Type} : List (String × α) → String → List (String × α)
  | [], _ => []
  | (k, v) :: d, key => if k = key then d else (k, v) :: dictPop d key

/-- State of one `Coordinator` object (coordinator.py `__init__`):
`self.workers`, `self.results`, `self.file_chunks`.  The port is irrelevant to
the modelled logic and omitted. -/
structure CoordState where
  workers : List (String × WorkerRecord)
  results : List (String × List ChunkMetrics)
  file_chunks : List (Nat × Nat)
deriving DecidableEq, Repr

/-- Handler `Coordinator.register_worker`: stores `{"status": "healthy"}` under
the worker id and answers 200 "Worker registered". -/
def register_worker (st : CoordState) (worker_id : String) : CoordState × HttpResponse :=
  ({ st with workers := dictSet st.workers worker_id ⟨"healthy"⟩ }, ⟨200, "Worker registered"⟩)

/-- Handler `Coordinator.receive_results`: appends the submitted result to
`self.results[worker_id]` (creating the list on first submission) and answers
200 "Results received".  No check of any kind is performed on `worker_id`. -/
def receive_results (st : CoordState) (worker_id : String) (result : ChunkMetrics) :
    CoordState × HttpResponse :=
  let newList :=
    match dictGet st.results worker_id with
    | some l => l ++ [result]
    | none => [result]
  ({ st with results := dictSet st.results worker_id newList }, ⟨200, "Results received"⟩)

/-- Handler `Coordinator.update_worker_health`: if the worker id is a key of
`self.workers` its status field is overwritten with the reported status;
otherwise nothing happens.  Either way the handler answers 200 "Health updated". -/
def update_worker_health (st : CoordState) (worker_id status : String) :
    CoordState × HttpResponse :=
  match dictGet st.workers worker_id with
  | some _ =>
      ({ st with workers := dictSet st.workers worker_id ⟨status⟩ }, ⟨200, "Health updated"⟩)
  | none => (st, ⟨200, "Health updated"⟩)

/-- Python `range(start, stop, step)` for a positive step: the ascending list
`start, start + step, ...` of values below `stop`. -/
def pyRange (start stop step : Nat) : List Nat :=
  if h : 0 < step ∧ start < stop then start :: pyRange (start + step) stop step
  else []
termination_by stop - start
decreasing_by omega

/-- Chunk list built in `Coordinator.distribute_work`:
`[(i, min(chunk_size, file_size - i)) for i in range(0, file_size, chunk_size)]`. -/
def chunkPlan (file_size chunk_size : Nat) : List (Nat × Nat) :=
  (pyRange 0 file_size chunk_size).map fun i => (i, min chunk_size (file_size - i))

/-- The chunk size hard-coded in `distribute_work`: `1024 * 1024` (1 MB). -/
def coordinatorChunkSize : Nat := 1024 * 1024

/-- `list(self.workers.keys())` as computed in `distribute_work`. -/
def workerIds (workers : List (String × WorkerRecord)) : List String :=
  workers.map Prod.fst

/-- The (chunk, worker) pairs `distribute_work` produces: chunk number `index`
goes to `worker_ids[index % len(worker_ids)]`, over ALL registered workers.
When no worker is registered `distribute_work` returns early with no
assignment.  Entries are `(start, size, worker_id)`.  (The `getD` default is
never reached: the index is always below the length of the nonempty list.) -/
def distributeAssignments (workers : List (String × WorkerRecord)) (file_size : Nat) :
    List (Nat × Nat × String) :=
  let ids := workerIds workers
  if ids = [] then []
  else
    (chunkPlan file_size coordinatorChunkSize).enum.map
      fun p => (p.2.1, p.2.2, ids.getD (p.1 % ids.length) "")

/-- Guard at the top of `Coordinator.send_work`: the chunk is actually sent
only when the target worker is registered and its status is "healthy";
otherwise `send_work` prints and returns without dispatching. -/
def sendWorkOk (workers : List (String × WorkerRecord)) (worker_id : String) : Bool :=
  match dictGet workers worker_id with
  | some r => r.status == "healthy"
  | none => false

/-- The chunks `distribute_work` actually dispatches: the assignments whose
target passes the `send_work` health guard. -/
def dispatchedChunks (workers : List (String × WorkerRecord)) (file_size : Nat) :
    List (Nat × Nat × String) :=
  (distributeAssignments workers file_size).filter fun t => sendWorkOk workers t.2.2

/-- A Python exception relevant to the modelled paths. -/
inductive PyError where
  | keyError
deriving DecidableEq, Repr

/-- `Coordinator.handle_worker_failure`: pops `self.results[worker_id]` (the
results that worker already SUBMITTED) and then, for each popped result, runs
`distribute_work(result["filepath"])`.  Worker-submitted results are the
metrics dicts of `Worker.process_chunk`, which have no "filepath" key, so the
first loop iteration raises `KeyError` — after the pop has already destroyed
the submitted results.  The model returns the mutated state together with the
error, if any. -/
def handle_worker_failure (st : CoordState) (worker_id : String) :
    CoordState × Option PyError :=
  let failed := (dictGet st.results worker_id).getD []
  let st1 := { st with results := dictPop st.results worker_id }
  match failed with
  | [] => (st1, none)
  | _ :: _ => (st1, some PyError.keyError)

/-- Aggregate dict that `Coordinator.process_file` initialises and returns. -/
structure AggState where
  total_requests : Nat
  malformed_lines : Nat
  error_count : Nat
  avg_response_time : ℚ
deriving DecidableEq, Repr

/-- Element of the hard-coded `worker_results` list inside `process_file`. -/
structure SimResult where
  total_requests : Nat
  malformed_lines : Nat
  avg_response_time : ℚ
deriving DecidableEq, Repr

/-- The loop body of `process_file`: fold a list of results into the aggregate
by adding `total_requests` and `malformed_lines`; the other fields are left
untouched (the corresponding lines are commented out in the source). -/
def foldResults (init : AggState) (rs : List SimResult) : AggState :=
  rs.foldl
    (fun st r =>
      { st with
        total_requests := st.total_requests + r.total_requests
        malformed_lines := st.malformed_lines + r.malformed_lines })
    init

/-- The literal `worker_results` list hard-coded in `process_file`. -/
def worker_results : List SimResult :=
  [⟨1000, 10, 109⟩, ⟨2000, 20, 109⟩]

/-- `Coordinator.process_file`: overwrites `self.results` with the initial
aggregate dict `{"total_requests": 0, "malformed_lines": 0, "error_count": 0,
"avg_response_time": 109.0}`, folds the hard-coded `worker_results` into it,
and returns it.  Neither the filepath nor any coordinator state is consulted;
the model returns the aggregate value. -/
def process_file (st : CoordState) (filepath : String) : AggState :=
  foldResults ⟨0, 0, 0, 109⟩ worker_results

/-- Python `str.splitlines` restricted to the line boundaries the source can
meet: a line ends at `\n`, `\r\n` or `\r`; trailing text without a final
newline forms a last line; a trailing newline does not create an empty line.
The accumulator holds the current line reversed. -/
def splitlinesAux : List Char → List Char → List (List Char)
  | [], acc => if acc = [] then [] else [acc.reverse]
  | '\r' :: '\n' :: rest, acc => acc.reverse :: splitlinesAux rest []
  | '\n' :: rest, acc => acc.reverse :: splitlinesAux rest []
  | '\r' :: rest, acc => acc.reverse :: splitlinesAux rest []
  | c :: rest, acc => splitlinesAux rest (c :: acc)

/-- Python `needle in hay` on strings: substring test by scanning suffixes. -/
def containsSub (needle : List Char) : List Char → Bool
  | [] => needle.isEmpty
  | c :: t => needle.isPrefixOf (c :: t) || containsSub needle t

/-- `Worker.process_chunk`: the filesystem is abstracted as a partial map from
filepath to file content (`none` models any exception raised while opening or
reading).  On success the chunk is `file.seek(start); file.read(size)`, i.e.
`size` characters from position `start`; the metrics count its lines and the
lines containing "ERROR" / "WARNING".  On any exception the initial all-zero
metrics dict is returned — the `except` clause swallows the error, so the
function never propagates an exception to the caller. -/
def process_chunk (fs : String → Option String) (filepath : String) (start size : Nat) :
    ChunkMetrics :=
  match fs filepath with
  | none => ⟨0, 0, 0⟩
  | some content =>
      let data := (content.toList.drop start).take size
      let lines := splitlinesAux data []
      ⟨lines.length,
       (lines.filter fun l => containsSub "ERROR".toList l).length,
       (lines.filter fun l => containsSub "WARNING".toList l).length⟩

/-! Unfolding lemmas for `pyRange` and structural lemmas about the chunk plan. -/

lemma pyRange_pos {start stop step : Nat} (hs : 0 < step) (h : start < stop) :
    pyRange start stop step = start :: pyRange (start + step) stop step := by
  rw [pyRange]
  simp [hs, h]

lemma pyRange_neg {start stop step : Nat} (h : ¬(0 < step ∧ start < stop)) :
    pyRange start stop step = [] := by
  rw [pyRange]
  simp [h]

lemma pyRange_mem_lt {stop step : Nat} :
    ∀ n start, stop - start ≤ n → ∀ x ∈ pyRange start stop step, x < stop := by
  intro n
  induction n with
  | zero =>
      intro start hb x hx
      rw [pyRange_neg (by omega)] at hx
      simp at hx
  | succ n ih =>
      intro start hb x hx
      by_cases h : 0 < step ∧ start < stop
      · rw [pyRange_pos h.1 h.2] at hx
        rcases List.mem_cons.mp hx with h1 | h1
        · omega
        · exact ih (start + step) (by omega) x h1
      · rw [pyRange_neg h] at hx
        simp at hx

lemma chunkLen_sum {stop step : Nat} (hs : 0 < step) :
    ∀ n start, stop - start ≤ n →
      ((pyRange start stop step).map fun i => min step (stop - i)).sum = stop - start := by
  intro n
  induction n with
  | zero =>
      intro start hb
      rw [pyRange_neg (by omega)]
      simp only [List.map_nil, List.sum_nil]
      omega
  | succ n ih =>
      intro start hb
      by_cases h : start < stop
      · rw [pyRange_pos hs h]
        simp only [List.map_cons, List.sum_cons]
        rw [ih (start + step) (by omega)]
        omega
      · rw [pyRange_neg (by omega)]
        simp only [List.map_nil, List.sum_nil]
        omega

lemma chunk_chain {stop step : Nat} (hs : 0 < step) :
    ∀ n start, stop - start ≤ n →
      List.Chain' (fun a b => a.1 + a.2 = b.1)
        ((pyRange start stop step).map fun i => (i, min step (stop - i))) := by
  intro n
  induction n with
  | zero =>
      intro start hb
      rw [pyRange_neg (by omega)]
      simp
  | succ n ih =>
      intro start hb
      by_cases h : start < stop
      · rw [pyRange_pos hs h]
        simp only [List.map_cons]
        rw [List.chain'_cons']
        refine ⟨?_, ih (start + step) (by omega)⟩
        intro y hy
        by_cases h2 : start + step < stop
        · rw [pyRange_pos hs h2] at hy
          simp only [List.map_cons, List.head?_cons, Option.mem_def,
            Option.some.injEq] at hy
          subst hy
          simp only
          omega
        · rw [pyRange_neg (by omega)] at hy
          simp at hy
      · rw [pyRange_neg (by omega)]
        simp

lemma chunk_last {stop step : Nat} (hs : 0 < step) :
    ∀ n start, stop - start ≤ n → start < stop →
      ((pyRange start stop step).map fun i => min step (stop - i)).getLast?
        = some (if (stop - start) % step = 0 then step else (stop - start) % step) := by
  intro n
  induction n with
  | zero =>
      intro start hb hlt
      omega
  | succ n ih =>
      intro start hb hlt
      rw [pyRange_pos hs hlt]
      by_cases h2 : start + step < stop
      · have hrec := ih (start + step) (by omega) h2
        rw [pyRange_pos hs h2] at hrec ⊢
        simp only [List.map_cons] at hrec ⊢
        rw [List.getLast?_cons_cons, hrec]
        have heq : stop - start = (stop - (start + step)) + step := by omega
        rw [heq, Nat.add_mod_right]
      · rw [pyRange_neg (by omega)]
        simp only [List.map_cons, List.map_nil]
        have hle : stop - start ≤ step := by omega
        by_cases he : stop - start = step
        · rw [List.getLast?_singleton]
          rw [he]
          simp [Nat.mod_self]
        · rw [List.getLast?_singleton]
          have hlt2 : stop - start < step := by omega
          rw [Nat.mod_eq_of_lt hlt2]
          have hne : ¬(stop - start = 0) := by omega
          simp only [hne, if_false]
          congr 1
          omega

/-- C1: for every `file_size ≥ 0` and `chunk_size > 0`, the chunk plan built
in `distribute_work` is contiguous, non-overlapping and exactly tiles
`[0, file_size)`: a zero-size file yields the empty plan, the first chunk
starts at offset 0, each chunk's offset plus its length is the next chunk's
offset, the last chunk's length is `file_size % chunk_size` when that is
nonzero and `chunk_size` otherwise, the lengths sum to `file_size`, and every
length is positive. -/
theorem chunkPlan_correct (file_size chunk_size : Nat) (h : 0 < chunk_size) :
    (file_size = 0 → chunkPlan file_size chunk_size = [])
    ∧ (0 < file_size →
        (chunkPlan file_size chunk_size).head? = some (0, min chunk_size file_size))
    ∧ List.Chain' (fun a b => a.1 + a.2 = b.1) (chunkPlan file_size chunk_size)
    ∧ (∀ i (h1 : i + 1 < (chunkPlan file_size chunk_size).length),
        ((chunkPlan file_size chunk_size).get ⟨i, by omega⟩).1
          + ((chunkPlan file_size chunk_size).get ⟨i, by omega⟩).2
          = ((chunkPlan file_size chunk_size).get ⟨i + 1, h1⟩).1)
    ∧ (0 < file_size →
        ((chunkPlan file_size chunk_size).map Prod.snd).getLast?
          = some (if file_size % chunk_size = 0 then chunk_size
                  else file_size % chunk_size))
    ∧ ((chunkPlan file_size chunk_size).map Prod.snd).sum = file_size
    ∧ (∀ c ∈ chunkPlan file_size chunk_size, 0 < c.2) := by
  have hchain : List.Chain' (fun a b : Nat × Nat => a.1 + a.2 = b.1)
      (chunkPlan file_size chunk_size) := by
    unfold chunkPlan
    exact chunk_chain h file_size 0 (by omega)
  have hmapsnd : (chunkPlan file_size chunk_size).map Prod.snd
      = (pyRange 0 file_size chunk_size).map fun i => min chunk_size (file_size - i) := by
    unfold chunkPlan
    rw [List.map_map]
    rfl
  refine ⟨?_, ?_, hchain, ?_, ?_, ?_, ?_⟩
  · intro h0
    unfold chunkPlan
    rw [pyRange_neg (by omega)]
    rfl
  · intro h0
    unfold chunkPlan
    rw [pyRange_pos h h0]
    simp
  · intro i h1
    have := List.chain'_iff_get.mp hchain i (by omega)
    exact this
  · intro h0
    rw [hmapsnd]
    have := chunk_last h file_size 0 (by omega) h0
    rwa [Nat.sub_zero] at this
  · rw [hmapsnd]
    have := @chunkLen_sum file_size chunk_size h file_size 0 (by omega)
    rwa [Nat.sub_zero] at this
  · intro c hc
    unfold chunkPlan at hc
    rcases List.mem_map.mp hc with ⟨i, hi, rfl⟩
    have := pyRange_mem_lt file_size 0 (by omega) i hi
    simp only
    omega

/-- Witness for C1 at `file_size = 5`, `chunk_size = 2`. -/
theorem chunkPlan_correct_witness :
    0 < 2 ∧ ((chunkPlan 5 2).map Prod.snd).sum = 5 :=
  ⟨by decide, (chunkPlan_correct 5 2 (by decide)).2.2.2.2.2.1⟩

/-! Helper lemmas about the dictionary model. -/

lemma dictGet_dictSet_self {α : Type} (d : List (String × α)) (k : String) (v : α) :
    dictGet (dictSet d k v) k = some v := by
  induction d with
  | nil => simp [dictGet, dictSet]
  | cons p d ih =>
      obtain ⟨k1, v1⟩ := p
      by_cases h : k1 = k
      · simp [dictGet, dictSet, h]
      · simp [dictGet, dictSet, h, ih]

/-- C9: for every filepath and every prior coordinator state, `process_file`
returns the fixed aggregate `{total_requests := 3000, malformed_lines := 30,
error_count := 0, avg_response_time := 109.0}`: it never reads the named file
and never consults registered workers or received results. -/
theorem process_file_constant (st : CoordState) (filepath : String) :
    process_file st filepath = ⟨3000, 30, 0, 109⟩ := rfl

/-- C10: a result submission from any worker id — including one never
registered — is stored (appended to that id's result list), acknowledged with
200 "Results received", and leaves the worker registry untouched; no
registration or health check gates the submission. -/
theorem receive_results_always_accepts (st : CoordState) (worker_id : String)
    (r : ChunkMetrics) :
    (receive_results st worker_id r).2 = ⟨200, "Results received"⟩
    ∧ dictGet ((receive_results st worker_id r).1).results worker_id
        = some ((dictGet st.results worker_id).getD [] ++ [r])
    ∧ ((receive_results st worker_id r).1).workers = st.workers := by
  refine ⟨rfl, ?_, rfl⟩
  unfold receive_results
  cases h : dictGet st.results worker_id <;> simp [h, dictGet_dictSet_self]

/-- C3 (code evaluated at the failing input): submitting the same result for
the same chunk twice stores it twice in `results["w1"]` — `receive_results`
keys results only by worker id (submissions carry no chunk id) and performs
no duplicate filtering, so nothing restricts folding to the first result per
chunk. -/
theorem receive_results_duplicate_stored :
    dictGet ((receive_results
        ((receive_results ⟨[], [], []⟩ "w1" ⟨5, 1, 0⟩).1) "w1" ⟨5, 1, 0⟩).1).results "w1"
      = some [⟨5, 1, 0⟩, ⟨5, 1, 0⟩] := by
  simp [receive_results, dictGet, dictSet]

/-- C2 (code evaluated at the failing input): with worker "w1" owning one
already-submitted result, `handle_worker_failure "w1"` deletes that submitted
result from the coordinator state and raises `KeyError` (the loop reads
`result["filepath"]` from a metrics dict that has no such key).  The state
holds no pending-chunk assignments at all, so the operation cannot return the
failed worker's pending chunks; it consumes its completed results instead. -/
theorem handle_worker_failure_consumes_submitted :
    handle_worker_failure
        ⟨[("w1", ⟨"healthy"⟩), ("w2", ⟨"healthy"⟩)], [("w1", [⟨5, 1, 0⟩])], []⟩ "w1"
      = (⟨[("w1", ⟨"healthy"⟩), ("w2", ⟨"healthy"⟩)], [], []⟩, some PyError.keyError) := by
  simp [handle_worker_failure, dictGet, dictPop]

/-- C7 (counterexample): a health report for a worker id that was never
registered is NOT rejected: it is acknowledged with the same 200
"Health updated" success response a registered worker receives, and no
`UnknownWorker` error exists anywhere in the code.  (The registry is indeed
left unchanged.) -/
theorem update_health_unregistered_acked :
    update_worker_health ⟨[], [], []⟩ "w1" "unhealthy"
        = (⟨[], [], []⟩, ⟨200, "Health updated"⟩)
    ∧ (update_worker_health (register_worker ⟨[], [], []⟩ "w1").1 "w1" "unhealthy").2
        = ⟨200, "Health updated"⟩ :=
  ⟨rfl, rfl⟩

/-- C7 (amended): a health report for an unregistered worker id is silently
acknowledged with 200 "Health updated" and leaves the state unchanged; for a
registered worker id the report overwrites that worker's status with the
reported value and returns the same acknowledgment. -/
theorem update_worker_health_behavior (st : CoordState) (worker_id status : String) :
    (dictGet st.workers worker_id = none →
      update_worker_health st worker_id status = (st, ⟨200, "Health updated"⟩))
    ∧ (∀ r, dictGet st.workers worker_id = some r →
        update_worker_health st worker_id status
          = ({ st with workers := dictSet st.workers worker_id ⟨status⟩ },
             ⟨200, "Health updated"⟩)
        ∧ dictGet ((update_worker_health st worker_id status).1).workers worker_id
            = some ⟨status⟩) := by
  constructor
  · intro h
    unfold update_worker_health
    rw [h]
  · intro r h
    unfold update_worker_health
    rw [h]
    exact ⟨rfl, dictGet_dictSet_self _ _ _⟩

/-- Witness for C7's amended theorem at a concrete state: "w1" is not
registered, so its report is acknowledged and changes nothing. -/
theorem update_worker_health_behavior_witness :
    dictGet (CoordState.mk [("w2", ⟨"healthy"⟩)] [] []).workers "w1" = none
    ∧ update_worker_health ⟨[("w2", ⟨"healthy"⟩)], [], []⟩ "w1" "sick"
        = (⟨[("w2", ⟨"healthy"⟩)], [], []⟩, ⟨200, "Health updated"⟩) :=
  ⟨by simp [dictGet], (update_worker_health_behavior _ _ _).1 (by simp [dictGet])⟩

/-- C8: whenever opening or reading the byte range raises (modelled by the
filesystem map returning `none`), `process_chunk` returns the all-zero
metrics `{lines := 0, errors := 0, warnings := 0}`; being a total function it
never propagates an exception to the caller. -/
theorem process_chunk_error_zero (fs : String → Option String) (filepath : String)
    (start size : Nat) (h : fs filepath = none) :
    process_chunk fs filepath start size = ⟨0, 0, 0⟩ := by
  unfold process_chunk
  rw [h]

/-- Witness for C8 at the concrete always-failing filesystem. -/
theorem process_chunk_error_zero_witness :
    (fun _ : String => (none : Option String)) "app.log" = none
    ∧ process_chunk (fun _ => none) "app.log" 0 1024 = ⟨0, 0, 0⟩ :=
  ⟨rfl, process_chunk_error_zero _ _ _ _ rfl⟩

/-! More dictionary lemmas, used for the dispatch theorems. -/

lemma dictGet_mem {α : Type} {d : List (String × α)} {k : String} {v : α}
    (h : dictGet d k = some v) : (k, v) ∈ d := by
  induction d with
  | nil => simp [dictGet] at h
  | cons p d ih =>
      obtain ⟨k1, v1⟩ := p
      by_cases hk : k1 = k
      · subst hk
        simp [dictGet] at h
        subst h
        exact List.mem_cons_self _ _
      · simp [dictGet, hk] at h
        exact List.mem_cons_of_mem _ (ih h)

lemma dictGet_isSome_of_mem_keys {α : Type} {d : List (String × α)} {k : String}
    (h : k ∈ d.map Prod.fst) : ∃ v, dictGet d k = some v := by
  induction d with
  | nil => simp at h
  | cons p d ih =>
      obtain ⟨k1, v1⟩ := p
      by_cases hk : k1 = k
      · exact ⟨v1, by simp [dictGet, hk]⟩
      · obtain ⟨v, hv⟩ := ih (by
          simp only [List.map_cons, List.mem_cons] at h
          rcases h with h | h
          · exact absurd h.symm hk
          · exact h)
        exact ⟨v, by simp [dictGet, hk, hv]⟩

lemma getD_mod_mem {ids : List String} (h : ids ≠ []) (i : Nat) :
    ids.getD (i % ids.length) "" ∈ ids := by
  have hlen : 0 < ids.length := List.length_pos.mpr h
  have hlt : i % ids.length < ids.length := Nat.mod_lt _ hlen
  rw [List.getD_eq_get _ _ hlt]
  exact List.get_mem _ _ _

lemma enum_map_index {α β : Type} (g : Nat → β) (l : List α) :
    l.enum.map (fun p => g p.1) = (List.range l.length).map g := by
  rw [List.enum_eq_zip_range]
  calc ((List.range l.length).zip l).map (fun p => g p.1)
      = (((List.range l.length).zip l).map Prod.fst).map g := by
        rw [List.map_map]
        rfl
    _ = (List.range l.length).map g := by
        rw [List.map_fst_zip _ _ (by simp)]

/-! Concrete evaluations of the chunk plan (the well-founded `pyRange` does
not reduce by `rfl`, so the plan is computed once by rewriting). -/

lemma coordinatorChunkSize_eq : coordinatorChunkSize = 1048576 := by
  norm_num [coordinatorChunkSize]

lemma chunkPlan_3MB :
    chunkPlan 3000000 coordinatorChunkSize
      = [(0, 1048576), (1048576, 1048576), (2097152, 902848)] := by
  unfold chunkPlan
  rw [coordinatorChunkSize_eq, pyRange_pos (by omega) (by omega),
      pyRange_pos (by omega) (by omega), pyRange_pos (by omega) (by omega),
      pyRange_neg (by omega)]
  rfl

lemma chunkPlan_2MB :
    chunkPlan 2097152 coordinatorChunkSize = [(0, 1048576), (1048576, 1048576)] := by
  unfold chunkPlan
  rw [coordinatorChunkSize_eq, pyRange_pos (by omega) (by omega),
      pyRange_pos (by omega) (by omega), pyRange_neg (by omega)]
  rfl

/-- Three healthy registered workers, in registration order. -/
def threeWorkers : List (String × WorkerRecord) :=
  [("w0", ⟨"healthy"⟩), ("w1", ⟨"healthy"⟩), ("w2", ⟨"healthy"⟩)]

/-- Registered workers of which the first is unhealthy. -/
def mixedWorkers : List (String × WorkerRecord) :=
  [("w0", ⟨"unhealthy"⟩), ("w1", ⟨"healthy"⟩)]

/-- A single healthy registered worker. -/
def w1Only : List (String × WorkerRecord) := [("w1", ⟨"healthy"⟩)]

lemma distributeAssignments_three :
    distributeAssignments threeWorkers 3000000
      = [(0, 1048576, "w0"), (1048576, 1048576, "w1"), (2097152, 902848, "w2")] := by
  simp only [distributeAssignments]
  rw [chunkPlan_3MB]
  rfl

lemma distributeAssignments_mixed :
    distributeAssignments mixedWorkers 2097152
      = [(0, 1048576, "w0"), (1048576, 1048576, "w1")] := by
  simp only [distributeAssignments]
  rw [chunkPlan_2MB]
  rfl

lemma distributeAssignments_w1Only :
    distributeAssignments w1Only 3000000
      = [(0, 1048576, "w1"), (1048576, 1048576, "w1"), (2097152, 902848, "w1")] := by
  simp only [distributeAssignments]
  rw [chunkPlan_3MB]
  rfl

lemma dispatchedChunks_w1Only :
    dispatchedChunks w1Only 3000000
      = [(0, 1048576, "w1"), (1048576, 1048576, "w1"), (2097152, 902848, "w1")] := by
  unfold dispatchedChunks
  rw [distributeAssignments_w1Only]
  rfl

/-- Modelled from the spec: the worker a round-robin cursor over
`healthy_workers()` would pick for chunk number `index` — this is the
assignment rule the spec states; the code's actual rule is
`distributeAssignments`. -/
def specRoundRobinWorker (workers : List (String × WorkerRecord)) (index : Nat) :
    Option String :=
  let healthy := (workers.filter fun p => p.2.status == "healthy").map Prod.fst
  healthy.get? (index % healthy.length)

/-- C4 (counterexample): with registered workers w0 (unhealthy) and w1
(healthy) and a 2 MB file, the code assigns chunk 0 to the UNHEALTHY worker
"w0" — `distribute_work` cycles over ALL registered workers — while a
round-robin cursor over the currently healthy workers would give chunk 0 to
"w1".  The send to "w0" is then skipped by the `send_work` guard, so chunk 0
is not dispatched to anyone at all. -/
theorem distribute_ignores_health_counterexample :
    (distributeAssignments mixedWorkers 2097152).map (fun t => t.2.2) = ["w0", "w1"]
    ∧ specRoundRobinWorker mixedWorkers 0 = some "w1"
    ∧ dispatchedChunks mixedWorkers 2097152 = [(1048576, 1048576, "w1")] := by
  refine ⟨?_, by rfl, ?_⟩
  · rw [distributeAssignments_mixed]
    rfl
  · unfold dispatchedChunks
    rw [distributeAssignments_mixed]
    rfl

/-- C4 (amended): `distribute_work` draws its round-robin cursor over ALL
registered workers in registration order — not over the currently healthy
ones; the `send_work` guard merely skips the send when the chosen target is
unhealthy.  With at least one registered worker, chunk number `i` is assigned
to `worker_ids[i % len(worker_ids)]`; when every registered worker is healthy
no send is skipped; and in the scenario of a 3,000,000-byte file with three
healthy registered workers, exactly 3 chunks are produced and chunk `i` goes
to worker `i`. -/
theorem distribute_roundRobin_registered (workers : List (String × WorkerRecord))
    (file_size : Nat) (hne : workers ≠ []) :
    ((distributeAssignments workers file_size).map (fun t => t.2.2)
        = (List.range (chunkPlan file_size coordinatorChunkSize).length).map
            (fun i => (workerIds workers).getD (i % (workerIds workers).length) ""))
    ∧ ((∀ p ∈ workers, p.2.status = "healthy") →
        dispatchedChunks workers file_size = distributeAssignments workers file_size)
    ∧ distributeAssignments threeWorkers 3000000
        = [(0, 1048576, "w0"), (1048576, 1048576, "w1"), (2097152, 902848, "w2")] := by
  have hid : workerIds workers ≠ [] := by
    simpa [workerIds] using hne
  refine ⟨?_, ?_, distributeAssignments_three⟩
  · simp only [distributeAssignments, if_neg hid, List.map_map]
    exact enum_map_index
      (fun i => (workerIds workers).getD (i % (workerIds workers).length) "") _
  · intro hall
    unfold dispatchedChunks
    rw [List.filter_eq_self]
    intro t ht
    simp only [distributeAssignments, if_neg hid] at ht
    rcases List.mem_map.mp ht with ⟨p, hp, rfl⟩
    have hmem : (workerIds workers).getD (p.1 % (workerIds workers).length) ""
        ∈ workerIds workers := getD_mod_mem hid _
    obtain ⟨r, hr⟩ := @dictGet_isSome_of_mem_keys WorkerRecord workers _ hmem
    have hstat := hall _ (dictGet_mem hr)
    simp only at hstat
    unfold sendWorkOk
    rw [hr]
    simp [hstat]

/-- Witness for C4's amended theorem at the three-healthy-worker scenario. -/
theorem distribute_roundRobin_registered_witness :
    threeWorkers ≠ []
    ∧ distributeAssignments threeWorkers 3000000
        = [(0, 1048576, "w0"), (1048576, 1048576, "w1"), (2097152, 902848, "w2")] :=
  ⟨by simp [threeWorkers],
   (distribute_roundRobin_registered threeWorkers 3000000 (by simp [threeWorkers])).2.2⟩

/-! Unbounded re-dispatch (C5). -/

/-- Models `n` successive failure-recovery rounds: each round,
`handle_worker_failure` re-invokes `distribute_work`, which re-plans the whole
file and re-dispatches every chunk; the coordinator state carries no attempt
counter, so every round dispatches the full chunk list again. -/
def repeatedDispatches (workers : List (String × WorkerRecord)) (file_size : Nat) :
    Nat → List (Nat × Nat × String)
  | 0 => []
  | n + 1 => dispatchedChunks workers file_size ++ repeatedDispatches workers file_size n

lemma repeatedDispatches_count (workers : List (String × WorkerRecord))
    (file_size : Nat) (t : Nat × Nat × String) (n : Nat) :
    (repeatedDispatches workers file_size n).count t
      = n * (dispatchedChunks workers file_size).count t := by
  induction n with
  | zero => simp [repeatedDispatches]
  | succ n ih =>
      simp only [repeatedDispatches, List.count_append, ih]
      ring

/-- C5 (code bug): no `max_attempts` bound exists in the code.  The
coordinator state has no attempt counter and each recovery round
re-dispatches every chunk afresh, so for every candidate bound there is a
failure pattern under which chunk `(0, 1048576)` has been dispatched more
times than the bound; and the job's final result is the fixed constant of
`process_file`, which reports no permanently failed chunk. -/
theorem redispatch_unbounded :
    (∀ max_attempts : Nat, ∃ n : Nat, max_attempts < n
      ∧ (repeatedDispatches w1Only 3000000 n).count (0, 1048576, "w1") = n)
    ∧ (∀ (st : CoordState) (filepath : String),
        process_file st filepath = ⟨3000, 30, 0, 109⟩) := by
  constructor
  · intro m
    refine ⟨m + 1, by omega, ?_⟩
    rw [repeatedDispatches_count, dispatchedChunks_w1Only]
    have hc : ([(0, 1048576, "w1"), (1048576, 1048576, "w1"),
        (2097152, 902848, "w1")] : List (Nat × Nat × String)).count (0, 1048576, "w1")
        = 1 := by rfl
    rw [hc]
    omega
  · intro st filepath
    rfl

/-! The aggregation fold (C6). -/

lemma foldResults_eq (init : AggState) (rs : List SimResult) :
    foldResults init rs =
      { init with
        total_requests := init.total_requests + (rs.map SimResult.total_requests).sum
        malformed_lines := init.malformed_lines + (rs.map SimResult.malformed_lines).sum } := by
  induction rs generalizing init with
  | nil => simp [foldResults]
  | cons r rs ih =>
      have hstep : foldResults init (r :: rs)
          = foldResults
              { init with
                total_requests := init.total_requests + r.total_requests
                malformed_lines := init.malformed_lines + r.malformed_lines } rs := rfl
      rw [hstep, ih]
      obtain ⟨a, b, c, d⟩ := init
      simp only [List.map_cons, List.sum_cons, AggState.mk.injEq, and_true, true_and]
      constructor <;> omega

/-- C6: the fold `process_file` applies to a list of partial results is
order-insensitive: folding any two permutations of the same results into the
same initial aggregate yields the same final aggregate (the fold only adds
the `total_requests` and `malformed_lines` fields, and addition is
commutative and associative). -/
theorem foldResults_perm (init : AggState) (l1 l2 : List SimResult)
    (hp : l1.Perm l2) :
    foldResults init l1 = foldResults init l2 := by
  rw [foldResults_eq, foldResults_eq,
      (hp.map SimResult.total_requests).sum_eq, (hp.map SimResult.malformed_lines).sum_eq]

/-- Witness for C6: the hard-coded `worker_results` list folded in either
order gives the same aggregate. -/
theorem foldResults_perm_witness :
    worker_results.Perm worker_results.reverse
    ∧ foldResults ⟨0, 0, 0, 109⟩ worker_results
        = foldResults ⟨0, 0, 0, 109⟩ worker_results.reverse :=
  ⟨(List.reverse_perm worker_results).symm,
   foldResults_perm _ _ _ ((List.reverse_perm worker_results).symm)⟩

end LogAnalyzer
